import Mathlib

/-!
Shallow embedding of the reputation-based IP scoring repository.

Sources embedded:
  - PointRuleBuilder.py : class PointRule, class PointRuleBuilder
  - ReputationManager.py : class ReputationManager
  - IPGeoLocationTracker.py : the attribute surface of class IpGeoLocationTracker

Modelling conventions:
  - Console prints are diagnostics only and are not modelled.
  - A Python exception that escapes a method to its caller is modelled with
    Except; an exception that the method catches itself is not an error of
    the modelled function.
  - Python dictionaries are association lists in insertion order; item
    assignment overwrites in place for an existing key and appends a fresh
    key at the end, exactly like CPython dictionaries.
  - File input and output is abstracted to the JSON object value written or
    read; the JSON layer itself (json.dump / json.load) is kept only where
    it changes data, namely that a None dictionary key is serialized as the
    string key "null".
  - Machine integers are Int (Python integers are unbounded).
-/

/-- Exceptions that can escape a method to its caller in the embedded code.
The only uncaught exception relevant here is AttributeError, raised by
Python when an instance attribute that was never assigned is read. -/
inductive PyError where
  | attributeError : PyError
  deriving DecidableEq, Repr

/-- A flattened rule table, the shape of the JSON object
attribute to (value to points), and of ReputationManager.point_rules. -/
abbrev Table := List (String × List (String × Int))

/-- A blacklist: reason mapped to the list of blacklisted IP addresses. -/
abbrev Blacklist := List (String × List String)

/-- class PointRule: a rule awarding points for an attribute and optional
value. -/
structure PointRule where
  «attribute» : String
  value : Option String
  points : Int
  deriving DecidableEq, Repr

/-- PointRule.__init__: plain field assignment; the constructor performs no
validation of any argument, in particular points is stored as given. -/
def PointRule.init («attribute» : String) (value : Option String) (points : Int) : PointRule :=
  { «attribute» := «attribute», value := value, points := points }

/-- class PointRuleBuilder: the mutable builder state. current_attribute and
current_values are instance attributes that do not exist until the first
successful for_attribute call; none models the unset Python attribute, whose
read raises AttributeError. -/
structure PointRuleBuilder where
  rules : List PointRule
  rule_groups : List (String × List PointRule)
  current_attribute : Option String
  current_values : Option (List String)
  deriving DecidableEq, Repr

namespace PointRuleBuilder

/-- PointRuleBuilder.__init__: empty master list, empty group table, focus
attributes not yet assigned. -/
def empty : PointRuleBuilder :=
  { rules := [], rule_groups := [], current_attribute := none, current_values := none }

/-- The VALID_ATTRIBUTES allow-list, as listed in the source. -/
def VALID_ATTRIBUTES : List String :=
  ["country", "country_code", "city", "continent", "continent_code",
   "region", "region_code", "latitude", "longitude", "is_eu",
   "postal", "calling_code", "capital", "borders", "country_flag",
   "asn", "org", "isp", "domain", "timezone_id", "timezone_abbr",
   "timezone_is_dst", "timezone_offset", "timezone_utc", "current_time"]

/-- validate_attribute_name: membership in the allow-list. -/
def validate_attribute_name (attribute_name : String) : Bool :=
  VALID_ATTRIBUTES.contains attribute_name

/-- for_attribute: on a valid name, set the focus attribute and reset the
pending value list; on an invalid name, print an error (not modelled) and
leave every field unchanged. Always returns self. -/
def for_attribute (b : PointRuleBuilder) («attribute» : String) : PointRuleBuilder :=
  if validate_attribute_name «attribute» then
    { b with current_attribute := some «attribute», current_values := some [] }
  else b

/-- with_value: extend the pending value list with the given values.
Reading current_values before any successful for_attribute raises
AttributeError, which is not caught here. -/
def with_value (b : PointRuleBuilder) (values : List String) : Except PyError PointRuleBuilder :=
  match b.current_values with
  | none => .error .attributeError
  | some vals => .ok { b with current_values := some (vals ++ values) }

/-- with_points: a negative points value raises ValueError inside the
method, which catches it itself (prints and falls through to return self),
so the caller always gets the builder back and no rule is appended.
Otherwise one rule per pending value is appended to the master list.
Reading current_values when unset, or current_attribute inside the loop
when unset, raises AttributeError, which is not caught. The pending value
list is never cleared by this method. -/
def with_points (b : PointRuleBuilder) (points : Int) : Except PyError PointRuleBuilder :=
  if points < 0 then .ok b
  else
    match b.current_values with
    | none => .error .attributeError
    | some vals =>
      if vals.isEmpty then .ok b
      else
        match b.current_attribute with
        | none => .error .attributeError
        | some attr =>
          .ok { b with rules := b.rules ++ vals.map (fun v => PointRule.init attr (some v) points) }

/-- build: return the master rule list. -/
def build (b : PointRuleBuilder) : List PointRule :=
  b.rules

/-- clone_rule: for an index inside bounds, build a fresh builder whose
rules are a copy of the current list with the rule at the index appended
again; out of bounds, print an error (not modelled) and return None.
The first component is the receiver after the call: the method only reads
self (it copies self.rules before appending), so the receiver is returned
unchanged. -/
def clone_rule (b : PointRuleBuilder) (index : Int) : PointRuleBuilder × Option PointRuleBuilder :=
  if h : 0 ≤ index ∧ index < (b.rules.length : Int) then
    (b, some { rules := b.rules ++ [b.rules.get ⟨index.toNat, by omega⟩],
               rule_groups := [], current_attribute := none, current_values := none })
  else (b, none)

/-- add_rule_to_group: append the rule under the group name, creating the
group at the end of the table if absent. -/
def add_rule_to_group (b : PointRuleBuilder) (group_name : String) (rule : PointRule) :
    PointRuleBuilder :=
  if group_name ∈ b.rule_groups.map Prod.fst then
    { b with rule_groups :=
        b.rule_groups.map (fun g => if g.1 = group_name then (g.1, g.2 ++ [rule]) else g) }
  else
    { b with rule_groups := b.rule_groups ++ [(group_name, [rule])] }

/-- json.dump serializes a None dictionary key as the string key "null". -/
def jsonKey : Option String → String
  | some s => s
  | none => "null"

/-- Python dictionary item assignment d[k] = p: overwrite in place when the
key is present, append at the end otherwise (insertion order). -/
def dict_set (d : List (String × Int)) (k : String) (p : Int) : List (String × Int) :=
  if k ∈ d.map Prod.fst then
    d.map (fun e => if e.1 = k then (k, p) else e)
  else d ++ [(k, p)]

/-- data[a][v] = p over a defaultdict(dict): accessing a fresh attribute key
creates an empty inner dictionary at the end, which is then assigned into. -/
def data_set (t : Table) (a v : String) (p : Int) : Table :=
  if a ∈ t.map Prod.fst then
    t.map (fun e => if e.1 = a then (a, dict_set e.2 v p) else e)
  else t ++ [(a, [(v, p)])]

/-- One step of the save_to_json flattening loop: data[attribute][value] =
points for a single rule. -/
def save_step (t : Table) (r : PointRule) : Table :=
  data_set t r.«attribute» (jsonKey r.value) r.points

/-- save_to_json: the JSON object written to the file. The master list is
flattened first, then every group in table order, each group in list order;
a duplicate (attribute, value) pair overwrites the earlier points. -/
def save_to_json (b : PointRuleBuilder) : Table :=
  (b.rules ++ b.rule_groups.flatMap Prod.snd).foldl save_step []

/-- One iteration of the load loop, the chained call
for_attribute(attribute).with_value(value).with_points(points).
The error is the exception escaping the chain, to be caught by
load_from_json; no visible builder mutation precedes such an exception. -/
def load_step (b : PointRuleBuilder) («attribute» value : String) (points : Int) :
    Except PyError PointRuleBuilder :=
  (with_value (for_attribute b «attribute») [value]).bind (fun b2 => with_points b2 points)

/-- The iteration order of the load loop: every (attribute, value, points)
triple of the JSON object, attribute by attribute. -/
def table_pairs (data : Table) : List (String × String × Int) :=
  data.flatMap (fun e => e.2.map (fun vp => (e.1, vp.1, vp.2)))

/-- The double loop of load_from_json. The whole loop runs inside a single
try block whose handler catches every exception (prints it, not modelled),
so the first escaping exception stops the load with all changes made so far
kept. -/
def load_go (b : PointRuleBuilder) : List (String × String × Int) → PointRuleBuilder
  | [] => b
  | (a, v, p) :: rest =>
    match load_step b a v p with
    | .ok b2 => load_go b2 rest
    | .error _ => b

/-- load_from_json on an already parsed JSON object (file reading and JSON
parsing abstracted away). -/
def load_from_json (b : PointRuleBuilder) (data : Table) : PointRuleBuilder :=
  load_go b (table_pairs data)

/-- Proof device (not from the source): the rules that loading a table is
expected to append, one per (attribute, value, points) triple in iteration
order. -/
def rules_of_table (data : Table) : List PointRule :=
  (table_pairs data).map (fun q => PointRule.init q.1 (some q.2.1) q.2.2)

/-- Proof device (not from the source): the structural invariants of every
table the save_to_json fold produces — outer keys without duplicates, inner
keys without duplicates, inner dictionaries non-empty. -/
def TableGood (t : Table) : Prop :=
  (t.map Prod.fst).Nodup ∧ ∀ e ∈ t, (e.2.map Prod.fst).Nodup ∧ e.2 ≠ []

end PointRuleBuilder

/-- The instance attribute names assigned by IpGeoLocationTracker.__init__;
getattr on any other name raises AttributeError. -/
def TRACKER_FIELDS : List String :=
  ["ip", "ip_data", "type", "country", "country_code", "city", "continent",
   "continent_code", "region", "region_code", "latitude", "longitude",
   "is_eu", "postal", "calling_code", "capital", "borders", "country_flag",
   "asn", "org", "isp", "domain", "timezone_id", "timezone_abbr",
   "timezone_is_dst", "timezone_offset", "timezone_utc", "current_time"]

/-- A tracked IP record: the value held by each tracker field after
track_ip, abstracted to an optional scalar (none models a field left None
because the lookup did not fill it). Only fields named in TRACKER_FIELDS
exist on the object. -/
structure IpTracker where
  fields : String → Option String

/-- The class-level mutable state of ReputationManager: the BLACKLIST class
attribute, shared by every instance. -/
structure ClassState where
  BLACKLIST : Blacklist
  deriving DecidableEq, Repr

/-- An instance of class ReputationManager: its two instance attributes. -/
structure ReputationManager where
  blacklist : Blacklist
  point_rules : Table
  deriving DecidableEq, Repr

namespace ReputationManager

/-- The initial value of the BLACKLIST class attribute. -/
def BLACKLIST_initial : Blacklist :=
  [("Manual", ["1.2.3.4"]), ("Suspicious Activity", [])]

/-- The DEFAULT_POINT_RULES class attribute. -/
def DEFAULT_POINT_RULES : Table :=
  [("country", [("US", 10), ("UK", 20)]),
   ("region", [("NY", 5), ("CA", 8)]),
   ("city", [("New York City", 5), ("Los Angeles", 8)]),
   ("isp", [("ISP1", 10), ("ISP2", 15)]),
   ("org", [("Organization1", 10), ("Organization2", 15)])]

/-- ReputationManager.__init__: the instance blacklist is the argument, or a
copy of the class BLACKLIST when the argument is None; likewise for the
point rules. cls is the current class-level state. -/
def init (cls : ClassState) (blacklist : Option Blacklist) (point_rules : Option Table) :
    ReputationManager :=
  { blacklist :=
      match blacklist with
      | none => cls.BLACKLIST
      | some bl => bl,
    point_rules :=
      match point_rules with
      | none => DEFAULT_POINT_RULES
      | some pr => pr }

/-- check_in_blacklist: iterates over self.BLACKLIST. The instance never
assigns an attribute named BLACKLIST, so the name resolves to the class
attribute: the method reads only the class-level blacklist cls and never
the instance field m.blacklist. -/
def check_in_blacklist (cls : ClassState) (m : ReputationManager) (ip_address : String) : Bool :=
  cls.BLACKLIST.any (fun e => e.2.contains ip_address)

/-- add_to_blacklist: item assignment and append on self.BLACKLIST, which
resolves to the class attribute, so the method mutates the class-level
state shared by all instances; the instance m is untouched. -/
def add_to_blacklist (cls : ClassState) (m : ReputationManager) (reason ip_address : String) :
    ClassState :=
  if reason ∈ cls.BLACKLIST.map Prod.fst then
    { BLACKLIST :=
        cls.BLACKLIST.map (fun e => if e.1 = reason then (e.1, e.2 ++ [ip_address]) else e) }
  else
    { BLACKLIST := cls.BLACKLIST ++ [(reason, [ip_address])] }

/-- The scoring loop of get_reputation: for every (attr, attr_rules) entry
of the rule table, getattr(ip_tracker, attr) raises AttributeError when attr
is not a tracker field; a None field value is in no string-keyed dictionary
and contributes nothing; otherwise the matching points, if any, are added. -/
def score_rules_go (t : IpTracker) (acc : Int) : Table → Except PyError Int
  | [] => .ok acc
  | (attr, attr_rules) :: rest =>
    if TRACKER_FIELDS.contains attr then
      match t.fields attr with
      | none => score_rules_go t acc rest
      | some v =>
        match attr_rules.find? (fun e => e.1 == v) with
        | some e => score_rules_go t (acc + e.2) rest
        | none => score_rules_go t acc rest
    else .error .attributeError

/-- The reputation_score accumulation of get_reputation, starting at 0. -/
def score_rules (t : IpTracker) (point_rules : Table) : Except PyError Int :=
  score_rules_go t 0 point_rules

/-- get_reputation: the result together with the number of calls made to
the external geolocation service for this IP. A blacklisted IP returns 0
before the tracker is even constructed, so the provider is not contacted.
Otherwise the IpGeoLocationTracker constructor calls track_ip once and
get_reputation calls track_ip once more, hence two provider calls. The
provider is abstracted to a function from IP to tracked record. -/
def get_reputation (cls : ClassState) (m : ReputationManager) (provider : String → IpTracker)
    (ip_address : String) : Except PyError Int × Nat :=
  if check_in_blacklist cls m ip_address then (.ok 0, 0)
  else (score_rules (provider ip_address) m.point_rules, 2)

end ReputationManager

/-- Whether a modelled call returned normally (true) or an exception escaped
to the caller (false). -/
def except_is_ok (e : Except PyError Int) : Bool :=
  match e with
  | .ok _ => true
  | .error _ => false

open PointRuleBuilder ReputationManager

/-- Helper: everything an ok return of with_points can look like. The focus
attribute, pending value list and group table are always returned untouched;
the master list is unchanged, or extended by one rule per pending value when
the points are non-negative. -/
theorem with_points_ok_cases (b : PointRuleBuilder) (p : Int) (b' : PointRuleBuilder)
    (h : with_points b p = Except.ok b') :
    b'.current_attribute = b.current_attribute ∧ b'.current_values = b.current_values ∧
    b'.rule_groups = b.rule_groups ∧
    (b'.rules = b.rules ∨
      ∃ attr vals, b.current_attribute = some attr ∧ b.current_values = some vals ∧ 0 ≤ p ∧
        b'.rules = b.rules ++ vals.map (fun v => PointRule.init attr (some v) p)) := by
  unfold with_points at h
  split at h
  · injection h with h
    subst h
    exact ⟨rfl, rfl, rfl, Or.inl rfl⟩
  · rename_i hp
    split at h
    · exact absurd h (by simp)
    · rename_i vals hcv
      split at h
      · injection h with h
        subst h
        exact ⟨rfl, rfl, rfl, Or.inl rfl⟩
      · split at h
        · exact absurd h (by simp)
        · rename_i attr hca
          injection h with h
          subst h
          exact ⟨rfl, rfl, rfl, Or.inr ⟨attr, vals, hca, hcv, by omega, rfl⟩⟩

/-- C1: a blacklisted IP (one the blacklist membership check accepts) gets
reputation 0 immediately, whatever the rule table holds, and the
geolocation provider is called zero times. -/
theorem blacklisted_ip_scores_zero_without_provider (cls : ClassState) (m : ReputationManager)
    (provider : String → IpTracker) (ip : String)
    (h : check_in_blacklist cls m ip = true) :
    get_reputation cls m provider ip = (Except.ok 0, 0) := by
  simp [get_reputation, h]

/-- C1 witness: the initial class blacklist lists 1.2.3.4 under Manual, and
scoring it returns 0 with zero provider calls. -/
theorem blacklisted_ip_scores_zero_without_provider_witness :
    get_reputation ⟨[("Manual", ["1.2.3.4"]), ("Suspicious Activity", [])]⟩
      ⟨[], [("country", [("US", 10)])]⟩ (fun _ => ⟨fun _ => none⟩) "1.2.3.4"
    = (Except.ok 0, 0) :=
  blacklisted_ip_scores_zero_without_provider _ _ _ _ (by rfl)

/-- C2 counterexample: with_points on a builder with pending value US and
points -1 returns the builder normally (Except.ok), so no InvalidRuleError
reaches the caller; the ValueError is caught and printed inside the method. -/
theorem with_points_negative_no_raise_cex :
    with_points ⟨[], [], some "country", some ["US"]⟩ (-1)
      = Except.ok ⟨[], [], some "country", some ["US"]⟩ := by
  rfl

/-- C2 amended: with_points with negative points appends zero rules (the
atomic-batch half of the claim holds) and returns the builder unchanged to
the caller; the error is only printed, no exception propagates. -/
theorem with_points_negative_atomic_no_raise (b : PointRuleBuilder) (points : Int)
    (h : points < 0) : with_points b points = Except.ok b := by
  unfold with_points
  rw [if_pos h]

/-- C2 witness for the amended statement at a concrete builder and points. -/
theorem with_points_negative_atomic_no_raise_witness :
    with_points ⟨[], [], some "country", some ["US", "UK"]⟩ (-3)
      = Except.ok ⟨[], [], some "country", some ["US", "UK"]⟩ :=
  with_points_negative_atomic_no_raise _ _ (by decide)

/-- C3 counterexample: on a builder whose previous focus is country, a
failed for_attribute("bogus") leaves the stale focus in place, and the
following with_value / with_points chain appends a rule to the master list,
so the chain does result in a rule being added. -/
theorem for_attribute_invalid_stale_focus_cex :
    (with_value (for_attribute ⟨[], [], some "country", some []⟩ "bogus") ["US"]).bind
      (fun x => with_points x 5)
    = Except.ok ⟨[PointRule.init "country" (some "US") 5], [], some "country", some ["US"]⟩ := by
  rfl

/-- C3 amended: a failed for_attribute leaves the builder unchanged, so no
rule carrying the invalid attribute name is ever added by the following
chain; but with a stale previous focus the chain does add rules, carrying
the stale focus attribute. -/
theorem for_attribute_invalid_adds_no_rule_for_invalid_name (b b' : PointRuleBuilder)
    (a : String) (vs : List String) (p : Int) (r : PointRule)
    (hinv : validate_attribute_name a = false)
    (hfoc : b.current_attribute ≠ some a)
    (hchain : (with_value (for_attribute b a) vs).bind (fun x => with_points x p)
      = Except.ok b')
    (hr : r ∈ b'.rules) :
    for_attribute b a = b ∧ (r ∈ b.rules ∨ r.«attribute» ≠ a) := by
  have hfa : for_attribute b a = b := by
    unfold for_attribute
    rw [hinv]
    simp
  refine ⟨hfa, ?_⟩
  rw [hfa] at hchain
  unfold with_value at hchain
  cases hcv : b.current_values with
  | none =>
    rw [hcv] at hchain
    exact absurd hchain (by simp [Except.bind])
  | some vals =>
    rw [hcv] at hchain
    simp only [Except.bind] at hchain
    obtain ⟨hca, -, -, hcase⟩ := with_points_ok_cases _ p b' hchain
    rcases hcase with hsame | ⟨attr, vals2, hattr, -, -, happ⟩
    · rw [hsame] at hr
      exact Or.inl hr
    · rw [happ] at hr
      rcases List.mem_append.mp hr with hold | hnew
      · exact Or.inl hold
      · obtain ⟨v, -, hv⟩ := List.mem_map.mp hnew
        right
        rw [← hv]
        simp only [PointRule.init]
        intro hEq
        apply hfoc
        rw [← hEq]
        exact hattr

/-- C3 witness for the amended statement: concrete chain after a failed
for_attribute on a builder with a stale country focus. -/
theorem for_attribute_invalid_adds_no_rule_witness :
    for_attribute ⟨[], [], some "country", some []⟩ "bogus"
      = ⟨[], [], some "country", some []⟩ ∧
    (PointRule.init "country" (some "US") 5 ∈ ([] : List PointRule) ∨
      (PointRule.init "country" (some "US") 5).«attribute» ≠ "bogus") :=
  for_attribute_invalid_adds_no_rule_for_invalid_name
    ⟨[], [], some "country", some []⟩
    ⟨[PointRule.init "country" (some "US") 5], [], some "country", some ["US"]⟩
    "bogus" ["US"] 5 (PointRule.init "country" (some "US") 5)
    (by decide) (by decide) (by rfl) (by decide)

/-- C5: the code does not skip the rules of an unknown attribute. With the
unknown attribute after a valid one, the stale focus of the valid attribute
absorbs the unknown attribute values: loading asn:AS1=5 then bogus:X=7
produces three rules, all under asn, instead of the single rule asn:AS1=5
the claim requires. With the unknown attribute first, the chained
with_value raises AttributeError, the catch-all handler stops the load, and
the remaining valid attribute is never loaded. -/
theorem load_from_json_unknown_attribute_behavior :
    load_from_json empty [("asn", [("AS1", 5)]), ("bogus", [("X", 7)])]
      = ⟨[PointRule.init "asn" (some "AS1") 5, PointRule.init "asn" (some "AS1") 7,
          PointRule.init "asn" (some "X") 7], [], some "asn", some ["AS1", "X"]⟩
    ∧ load_from_json empty [("bogus", [("X", 7)]), ("asn", [("AS1", 5)])] = empty :=
  ⟨by decide, by decide⟩

/-- C6: clone_rule with an index inside bounds leaves the receiver
unmodified and returns a fresh builder whose master list is the original
list with the rule at the index appended again (length N + 1, first N
entries equal the original, last entry equals entry i); any index outside
bounds yields None. -/
theorem clone_rule_spec (b : PointRuleBuilder) (i j : Int)
    (h0 : 0 ≤ i) (hN : i < (b.rules.length : Int))
    (hj : ¬ (0 ≤ j ∧ j < (b.rules.length : Int))) :
    (clone_rule b i).1 = b ∧
    (clone_rule b i).2 = some ⟨b.rules ++ [b.rules.getD i.toNat (PointRule.init "" none 0)],
      [], none, none⟩ ∧
    clone_rule b j = (b, none) := by
  unfold clone_rule
  rw [dif_pos ⟨h0, hN⟩, dif_neg hj]
  have hlt : i.toNat < b.rules.length := by omega
  refine ⟨rfl, ?_, rfl⟩
  rw [List.getD_eq_get _ _ hlt]

/-- C6 witness at a two-rule builder, cloning index 1 and failing index 5. -/
theorem clone_rule_spec_witness :
    (clone_rule ⟨[PointRule.init "country" (some "US") 10,
        PointRule.init "city" (some "X") 3], [], none, none⟩ 1).1
      = ⟨[PointRule.init "country" (some "US") 10,
          PointRule.init "city" (some "X") 3], [], none, none⟩ ∧
    (clone_rule ⟨[PointRule.init "country" (some "US") 10,
        PointRule.init "city" (some "X") 3], [], none, none⟩ 1).2
      = some ⟨[PointRule.init "country" (some "US") 10, PointRule.init "city" (some "X") 3,
          PointRule.init "city" (some "X") 3], [], none, none⟩ ∧
    clone_rule ⟨[PointRule.init "country" (some "US") 10,
        PointRule.init "city" (some "X") 3], [], none, none⟩ 5
      = (⟨[PointRule.init "country" (some "US") 10,
          PointRule.init "city" (some "X") 3], [], none, none⟩, none) := by
  have h := clone_rule_spec ⟨[PointRule.init "country" (some "US") 10,
      PointRule.init "city" (some "X") 3], [], none, none⟩ 1 5
    (by decide) (by decide) (by decide)
  refine ⟨h.1, ?_, h.2.2⟩
  rw [h.2.1]
  rfl

/-- C7 counterexample: the constructor accepts negative points and stores
them, so a constructed rule with points below zero exists; construction
does not fail. -/
theorem point_rule_negative_points_cex :
    (PointRule.init "country" (some "US") (-1)).points < 0 := by
  decide

/-- C7 amended: construction performs no validation at all (the rule is
exactly the given triple, for any points); the negative-points rejection
lives in with_points instead, so a rule appended by the builder either was
already present or has non-negative points. -/
theorem point_rule_construction_no_validation (a : String) (v : Option String) (p : Int)
    (b b' : PointRuleBuilder) (r : PointRule)
    (hw : with_points b p = Except.ok b') (hr : r ∈ b'.rules) :
    PointRule.init a v p = ⟨a, v, p⟩ ∧ (r ∈ b.rules ∨ 0 ≤ r.points) := by
  refine ⟨rfl, ?_⟩
  obtain ⟨-, -, -, hcase⟩ := with_points_ok_cases b p b' hw
  rcases hcase with hsame | ⟨attr, vals, -, -, hp, happ⟩
  · rw [hsame] at hr
    exact Or.inl hr
  · rw [happ] at hr
    rcases List.mem_append.mp hr with hold | hnew
    · exact Or.inl hold
    · obtain ⟨v2, -, hv⟩ := List.mem_map.mp hnew
      right
      rw [← hv]
      exact hp

/-- C7 witness for the amended statement at a concrete successful
with_points call. -/
theorem point_rule_construction_no_validation_witness :
    PointRule.init "country" (some "US") 5 = ⟨"country", some "US", 5⟩ ∧
    (PointRule.init "country" (some "US") 5 ∈ ([] : List PointRule) ∨
      0 ≤ (PointRule.init "country" (some "US") 5).points) :=
  point_rule_construction_no_validation "country" (some "US") 5
    ⟨[], [], some "country", some ["US"]⟩
    ⟨[PointRule.init "country" (some "US") 5], [], some "country", some ["US"]⟩
    (PointRule.init "country" (some "US") 5) (by rfl) (by decide)

/-- C8 counterexample: a successful with_points returns with the pending
value list still holding US, not cleared to empty. -/
theorem with_points_keeps_pending_values_cex :
    with_points ⟨[], [], some "country", some ["US"]⟩ 5
      = Except.ok ⟨[PointRule.init "country" (some "US") 5], [], some "country", some ["US"]⟩
    ∧ (some ["US"] : Option (List String)) ≠ some [] :=
  ⟨by rfl, by decide⟩

/-- C8 amended: with_points never touches the pending value list or the
focus attribute: whatever it returns to the caller, both are exactly as
before the call (the list is cleared only by the next successful
for_attribute). -/
theorem with_points_preserves_pending_values (b : PointRuleBuilder) (p : Int)
    (b' : PointRuleBuilder) (h : with_points b p = Except.ok b') :
    b'.current_values = b.current_values ∧ b'.current_attribute = b.current_attribute := by
  obtain ⟨hca, hcv, -, -⟩ := with_points_ok_cases b p b' h
  exact ⟨hcv, hca⟩

/-- C8 witness for the amended statement. -/
theorem with_points_preserves_pending_values_witness :
    (⟨[PointRule.init "country" (some "US") 5], [], some "country",
        some ["US"]⟩ : PointRuleBuilder).current_values
      = (⟨[], [], some "country", some ["US"]⟩ : PointRuleBuilder).current_values ∧
    (⟨[PointRule.init "country" (some "US") 5], [], some "country",
        some ["US"]⟩ : PointRuleBuilder).current_attribute
      = (⟨[], [], some "country", some ["US"]⟩ : PointRuleBuilder).current_attribute :=
  with_points_preserves_pending_values ⟨[], [], some "country", some ["US"]⟩ 5
    ⟨[PointRule.init "country" (some "US") 5], [], some "country", some ["US"]⟩ (by rfl)

/-- C9 counterexample: a rule table whose attribute name is not a tracker
field makes scoring of a non-blacklisted IP raise AttributeError (getattr
on an unknown name), instead of contributing zero. -/
theorem score_unknown_attribute_raises_cex :
    get_reputation ⟨[]⟩ ⟨[], [("bogus", [("x", 1)])]⟩ (fun _ => ⟨fun _ => none⟩) "8.8.8.8"
      = (Except.error PyError.attributeError, 2) := by
  rfl

/-- Helper: one scoring step over an attribute that is not a tracker field
raises AttributeError. -/
theorem score_rules_go_cons_bad (t : IpTracker) (acc : Int) (attr : String)
    (attr_rules : List (String × Int)) (rest : Table)
    (h1 : TRACKER_FIELDS.contains attr = false) :
    score_rules_go t acc ((attr, attr_rules) :: rest) = Except.error PyError.attributeError := by
  have h1' : attr ∉ TRACKER_FIELDS := by simpa using h1
  simp [score_rules_go, h1']

/-- Helper: one scoring step over a tracker field left unfilled contributes
nothing. -/
theorem score_rules_go_cons_none (t : IpTracker) (acc : Int) (attr : String)
    (attr_rules : List (String × Int)) (rest : Table)
    (h1 : TRACKER_FIELDS.contains attr = true) (h2 : t.fields attr = none) :
    score_rules_go t acc ((attr, attr_rules) :: rest) = score_rules_go t acc rest := by
  have h1' : attr ∈ TRACKER_FIELDS := by simpa using h1
  simp [score_rules_go, h1', h2]

/-- Helper: one scoring step over a filled tracker field with no matching
rule value contributes nothing. -/
theorem score_rules_go_cons_nomatch (t : IpTracker) (acc : Int) (attr v : String)
    (attr_rules : List (String × Int)) (rest : Table)
    (h1 : TRACKER_FIELDS.contains attr = true) (h2 : t.fields attr = some v)
    (h3 : attr_rules.find? (fun e => e.1 == v) = none) :
    score_rules_go t acc ((attr, attr_rules) :: rest) = score_rules_go t acc rest := by
  have h1' : attr ∈ TRACKER_FIELDS := by simpa using h1
  simp [score_rules_go, h1', h2, h3]

/-- Helper: one scoring step over a filled tracker field with a matching
rule value adds its points. -/
theorem score_rules_go_cons_match (t : IpTracker) (acc : Int) (attr v : String)
    (attr_rules : List (String × Int)) (rest : Table) (e2 : String × Int)
    (h1 : TRACKER_FIELDS.contains attr = true) (h2 : t.fields attr = some v)
    (h3 : attr_rules.find? (fun e => e.1 == v) = some e2) :
    score_rules_go t acc ((attr, attr_rules) :: rest) = score_rules_go t (acc + e2.2) rest := by
  have h1' : attr ∈ TRACKER_FIELDS := by simpa using h1
  simp [score_rules_go, h1', h2, h3]

/-- Helper: the scoring loop returns normally from any accumulator when
every rule-table attribute is a tracker field. -/
theorem score_rules_go_ok (t : IpTracker) (pr : Table) :
    (∀ e ∈ pr, TRACKER_FIELDS.contains e.1 = true) →
    ∀ acc : Int, ∃ n : Int, score_rules_go t acc pr = Except.ok n := by
  induction pr with
  | nil => exact fun _ acc => ⟨acc, rfl⟩
  | cons e rest ih =>
    intro h acc
    obtain ⟨attr, attr_rules⟩ := e
    have hattr : TRACKER_FIELDS.contains attr = true := h _ (List.mem_cons_self _ _)
    have ih' := ih (fun e he => h e (List.mem_cons_of_mem _ he))
    cases hf : t.fields attr with
    | none => rw [score_rules_go_cons_none t acc attr attr_rules rest hattr hf]; exact ih' acc
    | some v =>
      cases hfind : attr_rules.find? (fun e => e.1 == v) with
      | none =>
        rw [score_rules_go_cons_nomatch t acc attr v attr_rules rest hattr hf hfind]
        exact ih' acc
      | some e2 =>
        rw [score_rules_go_cons_match t acc attr v attr_rules rest e2 hattr hf hfind]
        exact ih' (acc + e2.2)

/-- Helper: a rule-table entry whose tracker field is unfilled, or whose
value table has no key matching the field value, can be removed without
changing the scoring loop result. -/
theorem score_rules_go_drop_absent (t : IpTracker) (a : String) (vt : List (String × Int))
    (ha : TRACKER_FIELDS.contains a = true)
    (habsent : t.fields a = none ∨
      ∃ v, t.fields a = some v ∧ vt.find? (fun e => e.1 == v) = none) :
    ∀ (pre post : Table) (acc : Int),
      score_rules_go t acc (pre ++ (a, vt) :: post) = score_rules_go t acc (pre ++ post) := by
  intro pre
  induction pre with
  | nil =>
    intro post acc
    simp only [List.nil_append]
    rcases habsent with hnone | ⟨v, hv, hfind⟩
    · exact score_rules_go_cons_none t acc a vt post ha hnone
    · exact score_rules_go_cons_nomatch t acc a v vt post ha hv hfind
  | cons e pre ih =>
    intro post acc
    obtain ⟨attr, attr_rules⟩ := e
    simp only [List.cons_append]
    cases hc : TRACKER_FIELDS.contains attr with
    | false =>
      rw [score_rules_go_cons_bad t acc attr attr_rules _ hc,
        score_rules_go_cons_bad t acc attr attr_rules _ hc]
    | true =>
      cases hf : t.fields attr with
      | none =>
        rw [score_rules_go_cons_none t acc attr attr_rules _ hc hf,
          score_rules_go_cons_none t acc attr attr_rules _ hc hf]
        exact ih post acc
      | some v =>
        cases hfind : attr_rules.find? (fun e => e.1 == v) with
        | none =>
          rw [score_rules_go_cons_nomatch t acc attr v attr_rules _ hc hf hfind,
            score_rules_go_cons_nomatch t acc attr v attr_rules _ hc hf hfind]
          exact ih post acc
        | some e2 =>
          rw [score_rules_go_cons_match t acc attr v attr_rules _ e2 hc hf hfind,
            score_rules_go_cons_match t acc attr v attr_rules _ e2 hc hf hfind]
          exact ih post (acc + e2.2)

/-- C9 amended: when every rule-table attribute is a tracker field, scoring
a non-blacklisted IP returns normally (two provider calls, total started at
0), and an entry whose field is absent from the bag or matches no rule
contributes zero: removing it leaves the score unchanged. For an attribute
outside the tracker field set the loop raises AttributeError instead, per
the counterexample. -/
theorem scoring_total_on_tracker_fields (cls : ClassState) (m : ReputationManager)
    (provider : String → IpTracker) (ip : String) (pre post : Table) (a : String)
    (vt : List (String × Int))
    (hbl : check_in_blacklist cls m ip = false)
    (hattrs : ∀ e ∈ m.point_rules, TRACKER_FIELDS.contains e.1 = true)
    (hsplit : m.point_rules = pre ++ (a, vt) :: post)
    (habsent : (provider ip).fields a = none ∨
      ∃ v, (provider ip).fields a = some v ∧ vt.find? (fun e => e.1 == v) = none) :
    except_is_ok (get_reputation cls m provider ip).1 = true ∧
    (get_reputation cls m provider ip).2 = 2 ∧
    score_rules (provider ip) m.point_rules = score_rules (provider ip) (pre ++ post) := by
  have ha : TRACKER_FIELDS.contains a = true := by
    apply hattrs (a, vt)
    rw [hsplit]
    exact List.mem_append_right _ (List.mem_cons_self _ _)
  have hrep : get_reputation cls m provider ip
      = (score_rules (provider ip) m.point_rules, 2) := by
    unfold get_reputation
    rw [hbl]
    rfl
  obtain ⟨n, hn⟩ := score_rules_go_ok (provider ip) m.point_rules hattrs 0
  refine ⟨?_, ?_, ?_⟩
  · rw [hrep]
    unfold score_rules
    rw [hn]
    rfl
  · rw [hrep]
  · rw [hsplit]
    unfold score_rules
    exact score_rules_go_drop_absent _ _ _ ha habsent pre post 0

/-- C9 witness for the amended statement: country matches for 10 points,
the city entry has an unfilled field and contributes zero. -/
theorem scoring_total_on_tracker_fields_witness :
    except_is_ok (get_reputation ⟨[]⟩ ⟨[], [("country", [("US", 10)]), ("city", [("X", 1)])]⟩
      (fun _ => ⟨fun s => if s = "country" then some "US" else none⟩) "8.8.8.8").1 = true ∧
    (get_reputation ⟨[]⟩ ⟨[], [("country", [("US", 10)]), ("city", [("X", 1)])]⟩
      (fun _ => ⟨fun s => if s = "country" then some "US" else none⟩) "8.8.8.8").2 = 2 ∧
    score_rules ((fun _ => ⟨fun s => if s = "country" then some "US" else none⟩ :
        String → IpTracker) "8.8.8.8") [("country", [("US", 10)]), ("city", [("X", 1)])]
      = score_rules ((fun _ => ⟨fun s => if s = "country" then some "US" else none⟩ :
        String → IpTracker) "8.8.8.8") ([("country", [("US", 10)])] ++ []) :=
  scoring_total_on_tracker_fields ⟨[]⟩ ⟨[], [("country", [("US", 10)]), ("city", [("X", 1)])]⟩
    (fun _ => ⟨fun s => if s = "country" then some "US" else none⟩) "8.8.8.8"
    [("country", [("US", 10)])] [] "city" [("X", 1)]
    (by rfl) (by decide) (by rfl) (Or.inl (by rfl))

/-- C10: the blacklist membership check reads only the class-level
BLACKLIST: two instances constructed with different blacklist arguments
(and rule tables) agree on every IP, and add_to_blacklist mutates the
class-level state so that the added IP is seen as blacklisted through any
instance. -/
theorem check_in_blacklist_reads_only_class_state (cls : ClassState) (bl1 bl2 : Blacklist)
    (pr1 pr2 : Table) (m3 : ReputationManager) (reason ip : String) :
    check_in_blacklist cls (ReputationManager.init cls (some bl1) (some pr1)) ip
      = check_in_blacklist cls (ReputationManager.init cls (some bl2) (some pr2)) ip
    ∧ check_in_blacklist (add_to_blacklist cls m3 reason ip)
        (ReputationManager.init cls (some bl1) (some pr1)) ip = true := by
  refine ⟨rfl, ?_⟩
  unfold check_in_blacklist add_to_blacklist
  by_cases h : reason ∈ cls.BLACKLIST.map Prod.fst
  · rw [if_pos h]
    rw [List.any_eq_true]
    obtain ⟨e, he, hfst⟩ := List.mem_map.mp h
    refine ⟨(e.1, e.2 ++ [ip]), List.mem_map.mpr ⟨e, he, by rw [if_pos hfst]⟩, by simp⟩
  · rw [if_neg h]
    simp

/-- Helper: assigning a fresh key into an inner dictionary appends it. -/
theorem dict_set_of_not_mem (d : List (String × Int)) (k : String) (p : Int)
    (h : k ∉ d.map Prod.fst) : dict_set d k p = d ++ [(k, p)] := by
  unfold dict_set
  rw [if_neg h]

/-- Helper: the key list of an inner dictionary after assignment. -/
theorem dict_set_map_fst (d : List (String × Int)) (k : String) (p : Int) :
    (dict_set d k p).map Prod.fst
      = if k ∈ d.map Prod.fst then d.map Prod.fst else d.map Prod.fst ++ [k] := by
  unfold dict_set
  by_cases h : k ∈ d.map Prod.fst
  · rw [if_pos h, if_pos h, List.map_map]
    rw [show (Prod.fst ∘ fun e : String × Int => if e.1 = k then (k, p) else e) = Prod.fst from ?_]
    funext e
    by_cases hek : e.1 = k
    · simp [Function.comp, hek]
    · simp [Function.comp, hek]
  · rw [if_neg h, if_neg h, List.map_append]
    rfl

/-- Helper: inner assignment preserves the no-duplicate-keys invariant. -/
theorem dict_set_nodup (d : List (String × Int)) (k : String) (p : Int)
    (h : (d.map Prod.fst).Nodup) : ((dict_set d k p).map Prod.fst).Nodup := by
  rw [dict_set_map_fst]
  by_cases hm : k ∈ d.map Prod.fst
  · rw [if_pos hm]
    exact h
  · rw [if_neg hm]
    refine h.append (List.nodup_singleton k) ?_
    intro x hx hx2
    rw [List.mem_singleton] at hx2
    exact hm (hx2 ▸ hx)

/-- Helper: inner assignment never empties a dictionary. -/
theorem dict_set_ne_nil (d : List (String × Int)) (k : String) (p : Int) :
    dict_set d k p ≠ [] := by
  unfold dict_set
  by_cases hm : k ∈ d.map Prod.fst
  · rw [if_pos hm]
    intro hc
    rw [List.map_eq_nil_iff] at hc
    rw [hc] at hm
    simp at hm
  · rw [if_neg hm]
    simp

/-- Helper: every entry of an inner dictionary after assignment either was
already present or carries the assigned points. -/
theorem mem_dict_set (d : List (String × Int)) (k : String) (p : Int) (vp : String × Int)
    (h : vp ∈ dict_set d k p) : vp ∈ d ∨ vp.2 = p := by
  unfold dict_set at h
  by_cases hm : k ∈ d.map Prod.fst
  · rw [if_pos hm] at h
    obtain ⟨e, he, heq⟩ := List.mem_map.mp h
    by_cases hek : e.1 = k
    · rw [if_pos hek] at heq
      right
      rw [← heq]
    · rw [if_neg hek] at heq
      exact Or.inl (heq ▸ he)
  · rw [if_neg hm] at h
    rcases List.mem_append.mp h with h1 | h2
    · exact Or.inl h1
    · rw [List.mem_singleton] at h2
      right
      rw [h2]

/-- Helper: assigning a fresh attribute key appends a one-entry inner
dictionary. -/
theorem data_set_of_not_mem (t : Table) (a v : String) (p : Int)
    (h : a ∉ t.map Prod.fst) : data_set t a v p = t ++ [(a, [(v, p)])] := by
  unfold data_set
  rw [if_neg h]

/-- Helper: the attribute key list after an outer assignment. -/
theorem data_set_map_fst (t : Table) (a v : String) (p : Int) :
    (data_set t a v p).map Prod.fst
      = if a ∈ t.map Prod.fst then t.map Prod.fst else t.map Prod.fst ++ [a] := by
  unfold data_set
  by_cases h : a ∈ t.map Prod.fst
  · rw [if_pos h, if_pos h, List.map_map]
    rw [show (Prod.fst ∘ fun e : String × List (String × Int) =>
        if e.1 = a then (a, dict_set e.2 v p) else e) = Prod.fst from ?_]
    funext e
    by_cases hek : e.1 = a
    · simp [Function.comp, hek]
    · simp [Function.comp, hek]
  · rw [if_neg h, if_neg h, List.map_append]
    rfl

/-- Helper: outer assignment preserves the table invariants. -/
theorem data_set_good (t : Table) (a v : String) (p : Int) (h : TableGood t) :
    TableGood (data_set t a v p) := by
  obtain ⟨h1, h2⟩ := h
  constructor
  · rw [data_set_map_fst]
    by_cases hm : a ∈ t.map Prod.fst
    · rw [if_pos hm]
      exact h1
    · rw [if_neg hm]
      refine h1.append (List.nodup_singleton a) ?_
      intro x hx hx2
      rw [List.mem_singleton] at hx2
      exact hm (hx2 ▸ hx)
  · intro e he
    unfold data_set at he
    by_cases hm : a ∈ t.map Prod.fst
    · rw [if_pos hm] at he
      obtain ⟨e0, he0, heq⟩ := List.mem_map.mp he
      by_cases hek : e0.1 = a
      · rw [if_pos hek] at heq
        rw [← heq]
        exact ⟨dict_set_nodup _ _ _ (h2 e0 he0).1, dict_set_ne_nil _ _ _⟩
      · rw [if_neg hek] at heq
        exact heq ▸ h2 e0 he0
    · rw [if_neg hm] at he
      rcases List.mem_append.mp he with h3 | h3
      · exact h2 e h3
      · rw [List.mem_singleton] at h3
        rw [h3]
        constructor
        · simp
        · simp

/-- Helper: the save fold preserves the table invariants from any start. -/
theorem foldl_save_step_good (rs : List PointRule) :
    ∀ (t : Table), TableGood t → TableGood (rs.foldl save_step t) := by
  induction rs with
  | nil => exact fun t h => h
  | cons r rs ih =>
    intro t h
    exact ih _ (data_set_good _ _ _ _ h)

/-- Helper: every attribute key of an outer assignment result satisfies any
predicate held by the prior keys and the assigned key. -/
theorem data_set_keys {P : String → Prop} (t : Table) (a v : String) (p : Int)
    (ht : ∀ e ∈ t, P e.1) (ha : P a) : ∀ e ∈ data_set t a v p, P e.1 := by
  intro e he
  unfold data_set at he
  by_cases hm : a ∈ t.map Prod.fst
  · rw [if_pos hm] at he
    obtain ⟨e0, he0, heq⟩ := List.mem_map.mp he
    by_cases hek : e0.1 = a
    · rw [if_pos hek] at heq
      rw [← heq]
      exact ha
    · rw [if_neg hek] at heq
      rw [← heq]
      exact ht e0 he0
  · rw [if_neg hm] at he
    rcases List.mem_append.mp he with h3 | h3
    · exact ht e h3
    · rw [List.mem_singleton] at h3
      rw [h3]
      exact ha

/-- Helper: attribute keys produced by the save fold come from the starting
table or from rule attributes. -/
theorem foldl_save_step_keys {P : String → Prop} (rs : List PointRule) :
    ∀ (t : Table), (∀ e ∈ t, P e.1) → (∀ r ∈ rs, P r.«attribute») →
    ∀ e ∈ rs.foldl save_step t, P e.1 := by
  induction rs with
  | nil => exact fun t ht _ => ht
  | cons r rs ih =>
    intro t ht hr
    exact ih _ (data_set_keys _ _ _ _ ht (hr r (List.mem_cons_self _ _)))
      (fun r2 h2 => hr r2 (List.mem_cons_of_mem _ h2))

/-- Helper: every stored points value of an outer assignment result
satisfies any predicate held by the prior values and the assigned points. -/
theorem data_set_points {Q : Int → Prop} (t : Table) (a v : String) (p : Int)
    (ht : ∀ e ∈ t, ∀ vp ∈ e.2, Q vp.2) (hp : Q p) :
    ∀ e ∈ data_set t a v p, ∀ vp ∈ e.2, Q vp.2 := by
  intro e he vp hvp
  unfold data_set at he
  by_cases hm : a ∈ t.map Prod.fst
  · rw [if_pos hm] at he
    obtain ⟨e0, he0, heq⟩ := List.mem_map.mp he
    by_cases hek : e0.1 = a
    · rw [if_pos hek] at heq
      rw [← heq] at hvp
      rcases mem_dict_set _ _ _ _ hvp with h3 | h3
      · exact ht e0 he0 vp h3
      · rw [h3]
        exact hp
    · rw [if_neg hek] at heq
      rw [← heq] at hvp
      exact ht e0 he0 vp hvp
  · rw [if_neg hm] at he
    rcases List.mem_append.mp he with h3 | h3
    · exact ht e h3 vp hvp
    · rw [List.mem_singleton] at h3
      rw [h3] at hvp
      rw [List.mem_singleton] at hvp
      rw [hvp]
      exact hp

/-- Helper: points values produced by the save fold come from the starting
table or from rule points. -/
theorem foldl_save_step_points {Q : Int → Prop} (rs : List PointRule) :
    ∀ (t : Table), (∀ e ∈ t, ∀ vp ∈ e.2, Q vp.2) → (∀ r ∈ rs, Q r.points) →
    ∀ e ∈ rs.foldl save_step t, ∀ vp ∈ e.2, Q vp.2 := by
  induction rs with
  | nil => exact fun t ht _ => ht
  | cons r rs ih =>
    intro t ht hr
    exact ih _ (data_set_points _ _ _ _ ht (hr r (List.mem_cons_self _ _)))
      (fun r2 h2 => hr r2 (List.mem_cons_of_mem _ h2))

/-- Helper: one load iteration on a valid attribute and non-negative points
appends exactly one rule and sets the focus to that attribute with the one
value pending. -/
theorem load_step_ok (b : PointRuleBuilder) (a v : String) (p : Int)
    (ha : validate_attribute_name a = true) (hp : 0 ≤ p) :
    load_step b a v p
      = Except.ok
          { b with
            rules := b.rules ++ [PointRule.init a (some v) p],
            current_attribute := some a,
            current_values := some [v] } := by
  unfold load_step
  have h1 : for_attribute b a
      = { b with current_attribute := some a, current_values := some [] } := by
    unfold for_attribute
    exact if_pos ha
  rw [h1]
  have h2 : with_value { b with current_attribute := some a, current_values := some [] } [v]
      = Except.ok { b with current_attribute := some a, current_values := some [v] } := by
    rfl
  rw [h2]
  simp only [Except.bind]
  unfold with_points
  rw [if_neg (by omega : ¬ p < 0)]
  rfl

/-- Helper: the load loop over pairs of valid attributes and non-negative
points never stops early: it appends one rule per pair in iteration order
and never touches the group table. -/
theorem load_go_rules (ps : List (String × String × Int)) :
    ∀ (b : PointRuleBuilder),
    (∀ q ∈ ps, validate_attribute_name q.1 = true ∧ 0 ≤ q.2.2) →
    (load_go b ps).rules
        = b.rules ++ ps.map (fun q => PointRule.init q.1 (some q.2.1) q.2.2) ∧
    (load_go b ps).rule_groups = b.rule_groups := by
  induction ps with
  | nil => exact fun b _ => ⟨(List.append_nil b.rules).symm, rfl⟩
  | cons q ps ih =>
    intro b h
    obtain ⟨a, v, p⟩ := q
    obtain ⟨ha, hp⟩ := h _ (List.mem_cons_self _ _)
    have hgo : load_go b ((a, v, p) :: ps)
        = load_go
            { b with
              rules := b.rules ++ [PointRule.init a (some v) p],
              current_attribute := some a,
              current_values := some [v] } ps := by
      conv_lhs => unfold load_go
      rw [load_step_ok b a v p ha hp]
    rw [hgo]
    obtain ⟨ih1, ih2⟩ := ih _ (fun q hq => h q (List.mem_cons_of_mem _ hq))
    refine ⟨?_, ih2⟩
    rw [ih1]
    simp

/-- Helper: folding further rules of one attribute into a table ending with
that attribute extends its inner dictionary in order. -/
theorem fold_same_attr_go (a : String) (vtl : List (String × Int)) :
    ∀ (pre : Table) (cur : List (String × Int)),
    a ∉ pre.map Prod.fst →
    (∀ v ∈ vtl.map Prod.fst, v ∉ cur.map Prod.fst) →
    (vtl.map Prod.fst).Nodup →
    List.foldl save_step (pre ++ [(a, cur)])
        (vtl.map (fun vp => PointRule.init a (some vp.1) vp.2))
      = pre ++ [(a, cur ++ vtl)] := by
  induction vtl with
  | nil =>
    intro pre cur h1 h2 h3
    simp
  | cons vp vtl ih =>
    intro pre cur h1 h2 h3
    obtain ⟨v, p⟩ := vp
    simp only [List.map_cons, List.foldl_cons]
    have hvcur : v ∉ cur.map Prod.fst := h2 v (by simp)
    have hstep : save_step (pre ++ [(a, cur)]) (PointRule.init a (some v) p)
        = pre ++ [(a, cur ++ [(v, p)])] := by
      unfold save_step data_set
      simp only [PointRule.init, jsonKey]
      have hmem : a ∈ (pre ++ [(a, cur)]).map Prod.fst := by simp
      rw [if_pos hmem, List.map_append]
      have hpre : pre.map (fun e : String × List (String × Int) =>
          if e.1 = a then (a, dict_set e.2 v p) else e) = pre := by
        conv_rhs => rw [show pre = pre.map id from (List.map_id pre).symm]
        apply List.map_congr_left
        intro e he
        have : e.1 ≠ a := by
          intro hc
          exact h1 (hc ▸ List.mem_map_of_mem Prod.fst he)
        rw [if_neg this]
        rfl
      rw [hpre]
      simp only [List.map_cons, List.map_nil]
      rw [if_true]
      rw [dict_set_of_not_mem _ _ _ hvcur]
    rw [hstep]
    rw [ih pre (cur ++ [(v, p)]) h1 ?hfresh ((List.nodup_cons.mp h3).2)]
    · rw [List.append_assoc]
      rfl
    case hfresh =>
      intro v2 hv2
      rw [List.map_append, List.mem_append]
      rintro (hc | hc)
      · exact h2 v2 (List.mem_cons_of_mem _ hv2) hc
      · simp at hc
        rw [hc] at hv2
        exact (List.nodup_cons.mp h3).1 hv2

/-- Helper: re-flattening the rules read off a well-formed table rebuilds
exactly that table, appended after any accumulator with disjoint keys. -/
theorem fold_rules_of_table (T : Table) :
    ∀ (acc : Table),
    (T.map Prod.fst).Nodup →
    (∀ e ∈ T, (e.2.map Prod.fst).Nodup ∧ e.2 ≠ []) →
    (∀ x ∈ T.map Prod.fst, x ∉ acc.map Prod.fst) →
    List.foldl save_step acc (rules_of_table T) = acc ++ T := by
  induction T with
  | nil =>
    intro acc _ _ _
    simp [rules_of_table, table_pairs]
  | cons e T ih =>
    intro acc h1 h2 h3
    obtain ⟨a, vps⟩ := e
    simp only [List.map_cons] at h1 h3
    have hrr : rules_of_table ((a, vps) :: T)
        = vps.map (fun vp => PointRule.init a (some vp.1) vp.2) ++ rules_of_table T := by
      unfold rules_of_table table_pairs
      rw [List.flatMap_cons, List.map_append, List.map_map]
      rfl
    rw [hrr, List.foldl_append]
    have hanotin : a ∉ acc.map Prod.fst := h3 a (List.mem_cons_self _ _)
    obtain ⟨hvnodup, hvne⟩ := h2 (a, vps) (List.mem_cons_self _ _)
    have hblock : List.foldl save_step acc
        (vps.map (fun vp => PointRule.init a (some vp.1) vp.2)) = acc ++ [(a, vps)] := by
      cases vps with
      | nil => exact absurd rfl hvne
      | cons vp0 vtl =>
        obtain ⟨v0, p0⟩ := vp0
        simp only [List.map_cons, List.foldl_cons]
        have hstep0 : save_step acc (PointRule.init a (some v0) p0)
            = acc ++ [(a, [(v0, p0)])] := by
          unfold save_step
          simp only [PointRule.init, jsonKey]
          exact data_set_of_not_mem _ _ _ _ hanotin
        rw [hstep0]
        simp only [List.map_cons] at hvnodup
        have hnodup2 := List.nodup_cons.mp hvnodup
        rw [fold_same_attr_go a vtl acc [(v0, p0)] hanotin ?hfresh hnodup2.2]
        · rfl
        case hfresh =>
          intro v2 hv2
          simp only [List.map_cons, List.map_nil, List.mem_singleton]
          intro hc
          rw [hc] at hv2
          exact hnodup2.1 hv2
    rw [hblock]
    have hn := List.nodup_cons.mp h1
    rw [ih (acc ++ [(a, vps)]) hn.2 (fun e he => h2 e (List.mem_cons_of_mem _ he)) ?hdisj]
    · rw [List.append_assoc]
      rfl
    case hdisj =>
      intro x hx
      rw [List.map_append, List.mem_append]
      rintro (hL | hR)
      · exact h3 x (List.mem_cons_of_mem _ hx) hL
      · simp only [List.map_cons, List.map_nil, List.mem_singleton] at hR
        rw [hR] at hx
        exact hn.1 hx

/-- C4: for a rule set of exact-value rules over recognized attributes with
non-negative points (master list and groups), saving to the JSON mapping,
loading that mapping into a fresh builder, and saving again reproduces the
identical flattened attribute to value to points table. -/
theorem save_load_round_trip (b : PointRuleBuilder)
    (hval : ∀ r ∈ b.rules ++ b.rule_groups.flatMap Prod.snd,
      validate_attribute_name r.«attribute» = true)
    (hexact : ∀ r ∈ b.rules ++ b.rule_groups.flatMap Prod.snd, r.value ≠ none)
    (hpts : ∀ r ∈ b.rules ++ b.rule_groups.flatMap Prod.snd, 0 ≤ r.points) :
    save_to_json (load_from_json empty (save_to_json b)) = save_to_json b := by
  have hgood : TableGood (save_to_json b) := by
    unfold save_to_json
    exact foldl_save_step_good _ [] ⟨List.nodup_nil, by simp⟩
  have hkeys : ∀ e ∈ save_to_json b, validate_attribute_name e.1 = true := by
    unfold save_to_json
    exact @foldl_save_step_keys (fun x => validate_attribute_name x = true) _ [] (by simp) hval
  have hpts2 : ∀ e ∈ save_to_json b, ∀ vp ∈ e.2, 0 ≤ vp.2 := by
    unfold save_to_json
    exact @foldl_save_step_points (fun n => (0 : Int) ≤ n) _ [] (by simp) hpts
  have hpairs : ∀ q ∈ table_pairs (save_to_json b),
      validate_attribute_name q.1 = true ∧ 0 ≤ q.2.2 := by
    intro q hq
    unfold table_pairs at hq
    obtain ⟨e, he, hq2⟩ := List.mem_flatMap.mp hq
    obtain ⟨vp, hvp, heq⟩ := List.mem_map.mp hq2
    constructor
    · rw [← heq]
      exact hkeys e he
    · rw [← heq]
      exact hpts2 e he vp hvp
  obtain ⟨hr, hg⟩ := load_go_rules (table_pairs (save_to_json b)) empty hpairs
  have hsave_def : ∀ bb : PointRuleBuilder, save_to_json bb
      = List.foldl save_step [] (bb.rules ++ bb.rule_groups.flatMap Prod.snd) := fun _ => rfl
  have hfin : save_to_json (load_from_json empty (save_to_json b))
      = List.foldl save_step [] (rules_of_table (save_to_json b)) := by
    rw [hsave_def (load_from_json empty (save_to_json b))]
    unfold load_from_json
    rw [hr, hg]
    unfold rules_of_table
    simp [empty]
  rw [hfin]
  rw [fold_rules_of_table (save_to_json b) [] hgood.1 hgood.2 (by simp)]
  rfl

/-- C4 witness at a concrete two-attribute rule set. -/
theorem save_load_round_trip_witness :
    save_to_json (load_from_json empty (save_to_json
        ⟨[PointRule.init "country" (some "US") 10, PointRule.init "country" (some "UK") 20,
          PointRule.init "city" (some "X") 3], [], none, none⟩))
      = save_to_json ⟨[PointRule.init "country" (some "US") 10,
          PointRule.init "country" (some "UK") 20,
          PointRule.init "city" (some "X") 3], [], none, none⟩ :=
  save_load_round_trip _ (by decide) (by decide) (by decide)
